import Mathlib

/-!
Shallow embedding of the FROSTore peer-coordination layer.

Sources embedded here:
- src/input.rs: the generation coordinator (async fn generate) and the
  signing coordinator (async fn sign).
- src/swarm.rs: the SwarmError taxonomy and the caller-facing futures
  returned by Swarm::generate and Swarm::sign.

Modelling conventions:
- PeerId and Multiaddr are modelled as strings (the code moves between
  PeerId and its to_string form, an injective round trip).
- The libp2p kad QueryId is an abstract correlation token, modelled as Nat.
- The two select loops racing a tokio timer against a broadcast receiver
  are modelled over time-stamped event lists: an event stamped at or after
  the deadline is one the timer beats, so the loop returns the timeout
  error there, exactly as the sleep branch of the select fires first.
- rand::thread_rng draws are an injected stream of naturals; gen_range
  over a nonempty range 0..len is the draw reduced mod len, and over the
  empty range 0..0 it panics, modelled as the none result of selectPeers.
- bincode-then-base64 envelopes are injective encodings, modelled by
  constructors of the Payload inductive tagged as the wire strings are.
-/

abbrev PeerId := String
abbrev Multiaddr := String
abbrev QueryId := Nat

/-- libp2p kad GetClosestPeersOk: the key queried and the closest peers. -/
structure GetClosestPeersOk where
  key : List Nat
  peers : List PeerId
deriving DecidableEq, Repr

/-- The logical content of the b64(bincode(..)) envelope of a JOIN_GEN
message: (generation_id, peer_id, count as u16, listener_vec). -/
structure JoinInvitation where
  sessionId : String
  inviterId : String
  index : Nat
  addresses : List Multiaddr
deriving DecidableEq, Repr

/-- Wire payloads sent by the two coordinators, by their textual tag. -/
inductive Payload
  | joinGen (inv : JoinInvitation)
  | genR1
  | signR1 (sessionId : String) (groupKey : String) (message : String)
deriving DecidableEq, Repr

/-- Outbound effects of a coordinator, in emission order: a send on
subscribe_tx, on direct_peer_msg, or on peer_msg (gossip broadcast). -/
inductive OutMsg
  | subscribe (topic : String)
  | directMsg (peer : PeerId) (payload : Payload)
  | broadcast (topic : String) (payload : Payload)
deriving DecidableEq, Repr

/-- Result of the generate coordinator: Ok(()), Err(msg) from anyhow,
or a panic (the unwrap/gen_range aborts the task without an Err). -/
inductive GenResult
  | ok
  | err (msg : String)
  | panic
deriving DecidableEq, Repr

/-- The alphabet of the rand Alphanumeric distribution: A-Z, a-z, 0-9. -/
def alphanumericChars : List Char :=
  "ABCDEFGHIJKLMNOPQRSTUVWXYZabcdefghijklmnopqrstuvwxyz0123456789".toList

/-- A fresh session id, thread_rng().sample_iter(&Alphanumeric).take(32):
32 draws from the 62-character alphabet, driven by an injected stream. -/
def genSessionId (seed : Nat → Nat) : String :=
  String.mk ((List.range 32).map (fun i => alphanumericChars.getD (seed i % 62) 'A'))

/-- First select loop of generate: race a 30s timer against recv on
closest_peer_rx, looping past events whose QueryId differs from the one
this session issued. An event stamped at or after 30 lets the timer win. -/
def lookupWait (queryId : QueryId) :
    List (Nat × QueryId × GetClosestPeersOk) → Except String GetClosestPeersOk
  | [] => .error "Timed out"
  | (t, qid, ok) :: rest =>
      if 30 ≤ t then .error "Timed out"
      else if qid = queryId then .ok ok
      else lookupWait queryId rest

/-- Second select loop of generate: race a 120s timer against recv on
subscribed_rx, looping past events whose topic is not the generation id. -/
def joinWait (generationId : String) :
    List (Nat × String × List PeerId) → Except String (List PeerId)
  | [] => .error "Timed out"
  | (t, topic, peers) :: rest =>
      if 120 ≤ t then .error "Timed out"
      else if topic = generationId then .ok peers
      else joinWait generationId rest

/-- The selection loop: MAX_SIGNERS times, remove the peer at index
gen_range(0 .. peers.len()) and push it. gen_range over an empty range
panics, modelled as none. -/
def selectPeers (draws : Nat → Nat) : Nat → List PeerId → Option (List PeerId)
  | 0, _ => some []
  | n + 1, peers =>
      if h : 0 < peers.length then
        match selectPeers (fun k => draws (k + 1)) n (peers.eraseIdx (draws 0 % peers.length)) with
        | some rest => some (peers.get ⟨draws 0 % peers.length, Nat.mod_lt _ h⟩ :: rest)
        | none => none
      else none

/-- The invitation loop: for count in 1 ..= peer_map.len(), send peer_map
at count-1 a JOIN_GEN envelope carrying (generation_id, peer_id,
count as u16, listener_vec). The u16 cast is reduction mod 65536. -/
def joinMsgs (generationId peerIdStr : String) (addrs : List Multiaddr) :
    Nat → List PeerId → List OutMsg
  | _, [] => []
  | count, p :: rest =>
      OutMsg.directMsg p (Payload.joinGen ⟨generationId, peerIdStr, count % 65536, addrs⟩) ::
        joinMsgs generationId peerIdStr addrs (count + 1) rest

/-- Everything generate consumes: its arguments, its random draws, and
the time-stamped streams its two select loops receive from. Times are
relative to the start of the wait racing against them. -/
structure GenInput where
  queryId : QueryId
  maxSigners : Nat
  generationId : String
  peerId : String
  listeners : List Multiaddr
  draws : Nat → Nat
  closestPeerEvents : List (Nat × QueryId × GetClosestPeersOk)
  subscribedEvents : List (Nat × String × List PeerId)

/-- Embedding of src/input.rs generate: wait for the matching closest-peers result
(30s bound), draw MAX_SIGNERS peers, subscribe to the generation-id
topic, send one JOIN_GEN per selected peer, wait for the session-topic
subscription event (120s bound), validate every responder is in
peer_map, then broadcast GEN_R1 on the generation-id topic. The second
component is the ordered trace of outbound sends. -/
def generate (inp : GenInput) : GenResult × List OutMsg :=
  match lookupWait inp.queryId inp.closestPeerEvents with
  | .error e => (.err e, [])
  | .ok ok =>
    match selectPeers inp.draws inp.maxSigners ok.peers with
    | none => (.panic, [])
    | some peerMap =>
      let pre := OutMsg.subscribe inp.generationId ::
        joinMsgs inp.generationId inp.peerId inp.listeners 1 peerMap
      match joinWait inp.generationId inp.subscribedEvents with
      | .error e => (.err e, pre)
      | .ok responses =>
        if responses.all (fun p => peerMap.contains p) then
          (.ok, pre ++ [OutMsg.broadcast inp.generationId Payload.genR1])
        else
          (.err "Invalid peer responded", pre)

/-- Embedding of src/input.rs sign: generate a fresh signing id, serialize
(signing_id, onion, message) into a SIGN_R1 envelope, and broadcast it
on the topic named by the onion (the group key identifier). The result
is the full trace of outbound sends of the coordinator. -/
def sign (seed : Nat → Nat) (onion message : String) : List OutMsg :=
  [OutMsg.broadcast onion (Payload.signR1 (genSessionId seed) onion message)]

/-- Embedding of src/swarm.rs SwarmError. -/
inductive SwarmError
  | GenerationError
  | SigningError
  | InvalidSignature
  | ConfigurationError
  | MessageProcessingError
  | DatabaseError
  | InvalidPeer
deriving DecidableEq, Repr

/-- Opaque frost_ed25519 VerifyingKey. -/
structure VerifyingKey where
  bytes : List Nat
deriving DecidableEq, Repr

/-- Opaque frost_ed25519 Signature. -/
structure Signature where
  bytes : List Nat
deriving DecidableEq, Repr

/-- What awaiting a futures oneshot receiver can observe: a value was
sent, or the sender was dropped without sending (Canceled). -/
inductive OneshotRecv (α : Type)
  | value (a : α)
  | dropped
deriving DecidableEq, Repr

/-- Embedding of rx.await.map_err(.. MessageProcessingError), shared by the futures
returned from Swarm::generate and Swarm::sign. -/
def awaitPendingCall {α : Type} : OneshotRecv α → Except SwarmError α
  | .value a => .ok a
  | .dropped => .error SwarmError.MessageProcessingError

/-- The future Swarm::generate returns, as a function of what its
oneshot VerifyingKey channel delivers. -/
def swarmGenerateFuture (rx : OneshotRecv VerifyingKey) : Except SwarmError VerifyingKey :=
  awaitPendingCall rx

/-- The future Swarm::sign returns, as a function of what its oneshot
Signature channel delivers. -/
def swarmSignFuture (rx : OneshotRecv Signature) : Except SwarmError Signature :=
  awaitPendingCall rx

/-- Recognizer for a direct send addressed to peer p. -/
def isDirectTo (p : PeerId) : OutMsg → Bool
  | OutMsg.directMsg q _ => q == p
  | _ => false

/-- A concrete session: one signer wanted, peer p1 found at once, no
event ever arrives on the session topic. -/
def sampleNoJoin : GenInput :=
  { queryId := 0, maxSigners := 1, generationId := "g", peerId := "me",
    listeners := ["addr1"], draws := fun _ => 0,
    closestPeerEvents := [(0, 0, ⟨[], ["p1"]⟩)],
    subscribedEvents := [] }

/-- As sampleNoJoin, but an uninvited peer answers on the session topic. -/
def sampleForeign : GenInput :=
  { sampleNoJoin with subscribedEvents := [(0, "g", ["evil"])] }

/-- A session whose lookup result never arrives. -/
def sampleNoLookup : GenInput :=
  { sampleNoJoin with closestPeerEvents := [] }

/-- A session whose lookup result holds no peers at all. -/
def sampleEmptyLookup : GenInput :=
  { sampleNoJoin with closestPeerEvents := [(0, 0, ⟨[], []⟩)] }

/-- If every event carrying the QueryId of this session is stamped at or
after the 30s deadline, the lookup select loop ends in the timer branch. -/
theorem lookupWait_timeout (qid : QueryId) :
    ∀ events : List (Nat × QueryId × GetClosestPeersOk),
      (∀ e ∈ events, e.2.1 = qid → 30 ≤ e.1) →
      lookupWait qid events = Except.error "Timed out" := by
  intro events
  induction events with
  | nil => intro _; rfl
  | cons e rest ih =>
      intro h
      obtain ⟨t, q, ok⟩ := e
      rw [lookupWait]
      by_cases ht : 30 ≤ t
      · rw [if_pos ht]
      · rw [if_neg ht]
        by_cases hq : q = qid
        · exact absurd (h (t, q, ok) (List.mem_cons_self _ _) hq) ht
        · rw [if_neg hq]
          exact ih fun e he hq2 => h e (List.mem_cons_of_mem _ he) hq2

/-- If every event carrying the topic of this session is stamped at or after
the 120s deadline, the join select loop ends in the timer branch. -/
theorem joinWait_timeout (gid : String) :
    ∀ events : List (Nat × String × List PeerId),
      (∀ e ∈ events, e.2.1 = gid → 120 ≤ e.1) →
      joinWait gid events = Except.error "Timed out" := by
  intro events
  induction events with
  | nil => intro _; rfl
  | cons e rest ih =>
      intro h
      obtain ⟨t, topic, ps⟩ := e
      rw [joinWait]
      by_cases ht : 120 ≤ t
      · rw [if_pos ht]
      · rw [if_neg ht]
        by_cases htop : topic = gid
        · exact absurd (h (t, topic, ps) (List.mem_cons_self _ _) htop) ht
        · rw [if_neg htop]
          exact ih fun e he h2 => h e (List.mem_cons_of_mem _ he) h2

/-- Selecting from a pool smaller than the requested count reaches the
empty pool and the empty-range gen_range, i.e. the panic outcome. -/
theorem selectPeers_none_of_lt :
    ∀ (n : Nat) (draws : Nat → Nat) (peers : List PeerId), peers.length < n →
      selectPeers draws n peers = none := by
  intro n
  induction n with
  | zero => intro draws peers h; exact absurd h (Nat.not_lt_zero _)
  | succ n ih =>
      intro draws peers h
      rw [selectPeers]
      split
      · next hp =>
          have hlt : (draws 0) % peers.length < peers.length := Nat.mod_lt _ hp
          have : (peers.eraseIdx ((draws 0) % peers.length)).length < n := by
            rw [List.length_eraseIdx_of_lt hlt]
            omega
          rw [ih _ _ this]
      · rfl

/-- From a pool at least as large as the count, the selection returns a
list of exactly that length, drawn from the pool, and (if the pool has
no duplicates) without repetition. -/
theorem selectPeers_spec_aux :
    ∀ (n : Nat) (draws : Nat → Nat) (peers : List PeerId), n ≤ peers.length →
      ∃ pm, selectPeers draws n peers = some pm ∧ pm.length = n ∧ pm ⊆ peers ∧
        (peers.Nodup → pm.Nodup) := by
  intro n
  induction n with
  | zero =>
      intro draws peers _
      exact ⟨[], rfl, rfl, List.nil_subset _, fun _ => List.nodup_nil⟩
  | succ n ih =>
      intro draws peers h
      have hp : 0 < peers.length := Nat.lt_of_lt_of_le (Nat.succ_pos n) h
      have hi : (draws 0) % peers.length < peers.length := Nat.mod_lt _ hp
      have hlen : (peers.eraseIdx ((draws 0) % peers.length)).length = peers.length - 1 :=
        List.length_eraseIdx_of_lt hi
      obtain ⟨pm, hsel, hl, hsub, hnd⟩ :=
        ih (fun k => draws (k + 1)) (peers.eraseIdx ((draws 0) % peers.length)) (by omega)
      refine ⟨peers.get ⟨(draws 0) % peers.length, hi⟩ :: pm, ?_, by simp [hl], ?_, ?_⟩
      · rw [selectPeers]
        rw [dif_pos hp]
        simp only [hsel]
      · intro x hx
        rcases List.mem_cons.mp hx with hx | hx
        · rw [hx]; exact List.get_mem peers _ hi
        · exact List.eraseIdx_subset _ _ (hsub hx)
      · intro hN
        refine List.nodup_cons.mpr ⟨fun hmem => ?_, hnd (List.Nodup.eraseIdx _ hN)⟩
        have hmem2 := hsub hmem
        rw [List.mem_eraseIdx_iff_getElem] at hmem2
        obtain ⟨j, hj, hjk, hje⟩ := hmem2
        have : j = (draws 0) % peers.length := by
          have := (List.Nodup.getElem_inj_iff hN).mp (by simpa using hje)
          exact this
        exact hjk this

/-- The invitation loop emits no gossip broadcast. -/
theorem joinMsgs_no_broadcast (g pid : String) (a : List Multiaddr) :
    ∀ (pm : List PeerId) (c : Nat) (t : String) (pl : Payload),
      OutMsg.broadcast t pl ∉ joinMsgs g pid a c pm := by
  intro pm
  induction pm with
  | nil => intro c t pl h; exact (List.not_mem_nil _ h)
  | cons p rest ih =>
      intro c t pl h
      rw [joinMsgs] at h
      rcases List.mem_cons.mp h with h | h
      · exact OutMsg.noConfusion h
      · exact ih (c + 1) t pl h

/-- The invitation loop sends one message per selected peer. -/
theorem joinMsgs_length (g pid : String) (a : List Multiaddr) :
    ∀ (pm : List PeerId) (c : Nat), (joinMsgs g pid a c pm).length = pm.length := by
  intro pm
  induction pm with
  | nil => intro c; rfl
  | cons p rest ih => intro c; rw [joinMsgs]; simp [ih]

/-- The message at position k of the invitation loop started at count c
is the JOIN_GEN for the peer at position k, with index c + k cast to u16. -/
theorem joinMsgs_getD (g pid : String) (a : List Multiaddr) (d : OutMsg) :
    ∀ (pm : List PeerId) (c k : Nat), k < pm.length →
      (joinMsgs g pid a c pm).getD k d =
        OutMsg.directMsg (pm.getD k "") (Payload.joinGen ⟨g, pid, (c + k) % 65536, a⟩) := by
  intro pm
  induction pm with
  | nil => intro c k h; exact absurd h (Nat.not_lt_zero _)
  | cons p rest ih =>
      intro c k h
      rw [joinMsgs]
      cases k with
      | zero => simp [List.getD]
      | succ k =>
          have hk : k < rest.length := Nat.lt_of_succ_lt_succ h
          have h1 : (OutMsg.directMsg p
              (Payload.joinGen ⟨g, pid, c % 65536, a⟩) :: joinMsgs g pid a (c + 1) rest).getD
              (k + 1) d = (joinMsgs g pid a (c + 1) rest).getD k d := by
            simp [List.getD]
          rw [h1, ih (c + 1) k hk]
          have : c + 1 + k = c + (k + 1) := by omega
          rw [this]
          have h2 : ((p :: rest).getD (k + 1) "") = rest.getD k "" := by
            simp [List.getD]
          rw [h2]

/-- A peer outside the selection receives nothing from the invitation loop. -/
theorem joinMsgs_filter_not_mem (g pid : String) (a : List Multiaddr) (p : PeerId) :
    ∀ (pm : List PeerId) (c : Nat), p ∉ pm →
      (joinMsgs g pid a c pm).filter (isDirectTo p) = [] := by
  intro pm
  induction pm with
  | nil => intro c _; rfl
  | cons q rest ih =>
      intro c hnp
      rw [joinMsgs, List.filter_cons]
      have hf : isDirectTo p (OutMsg.directMsg q (Payload.joinGen ⟨g, pid, c % 65536, a⟩)) = false := by
        simp only [isDirectTo, beq_eq_false_iff_ne, ne_eq]
        intro he
        exact hnp (by rw [← he]; exact List.mem_cons_self q rest)
      rw [hf]
      simp only [Bool.false_eq_true, if_false]
      exact ih (c + 1) fun h => hnp (List.mem_cons_of_mem _ h)

/-- In a duplicate-free selection, filtering the output of the invitation loop
for sends to the peer at position k leaves exactly its one JOIN_GEN, with
participant index c + k reduced as a u16. -/
theorem joinMsgs_filter_at (g pid : String) (a : List Multiaddr) :
    ∀ (pm : List PeerId) (c k : Nat), pm.Nodup → k < pm.length →
      (joinMsgs g pid a c pm).filter (isDirectTo (pm.getD k "")) =
        [OutMsg.directMsg (pm.getD k "") (Payload.joinGen ⟨g, pid, (c + k) % 65536, a⟩)] := by
  intro pm
  induction pm with
  | nil => intro c k _ h; exact absurd h (Nat.not_lt_zero _)
  | cons q rest ih =>
      intro c k hnd hk
      obtain ⟨hq, hrest⟩ := List.nodup_cons.mp hnd
      cases k with
      | zero =>
          rw [joinMsgs, List.getD_cons_zero, List.filter_cons]
          have hf : isDirectTo q (OutMsg.directMsg q (Payload.joinGen ⟨g, pid, c % 65536, a⟩)) = true := by
            simp [isDirectTo]
          rw [hf]
          simp only [if_true]
          rw [joinMsgs_filter_not_mem g pid a q rest (c + 1) hq]
          simp
      | succ k =>
          have hk2 : k < rest.length := Nat.lt_of_succ_lt_succ hk
          rw [joinMsgs, List.getD_cons_succ, List.filter_cons]
          have hm : rest.getD k "" ∈ rest := by
            rw [List.getD_eq_getElem _ _ hk2]
            exact List.getElem_mem hk2
          have hf : isDirectTo (rest.getD k "")
              (OutMsg.directMsg q (Payload.joinGen ⟨g, pid, c % 65536, a⟩)) = false := by
            simp only [isDirectTo, beq_eq_false_iff_ne, ne_eq]
            intro he
            exact hq (by rw [he]; exact hm)
          rw [hf]
          simp only [Bool.false_eq_true, if_false]
          rw [ih (c + 1) k hrest hk2]
          have : c + 1 + k = c + (k + 1) := by omega
          rw [this]

/-- C2: if any peer in the join-response set is not a member of the
originally selected peer_map, generate fails with the invalid-peer error
and aborts before any cryptographic round begins: no GEN_R1 round-start
message is broadcast and no key is produced. -/
theorem generate_invalid_peer_aborts
    (inp : GenInput) (ok : GetClosestPeersOk) (pm responses : List PeerId) (p : PeerId)
    (hLk : lookupWait inp.queryId inp.closestPeerEvents = Except.ok ok)
    (hSel : selectPeers inp.draws inp.maxSigners ok.peers = some pm)
    (hJw : joinWait inp.generationId inp.subscribedEvents = Except.ok responses)
    (hp : p ∈ responses) (hnp : p ∉ pm) :
    (generate inp).1 = GenResult.err "Invalid peer responded" ∧
      ∀ t pl, OutMsg.broadcast t pl ∉ (generate inp).2 := by
  have hall : responses.all (fun q => pm.contains q) = false := by
    apply Bool.eq_false_iff.mpr
    intro hAll
    have hcont := List.all_eq_true.mp hAll p hp
    exact hnp (List.elem_iff.mp hcont)
  simp only [generate, hLk, hSel, hJw, hall]
  refine ⟨rfl, ?_⟩
  intro t pl h
  rcases List.mem_cons.mp h with h | h
  · exact OutMsg.noConfusion h
  · exact joinMsgs_no_broadcast inp.generationId inp.peerId inp.listeners pm 1 t pl h

/-- Closed evaluation of generate_invalid_peer_aborts: the one selected
peer is p1, but evil answers on the session topic. -/
theorem generate_invalid_peer_aborts_witness :
    (generate sampleForeign).1 = GenResult.err "Invalid peer responded" ∧
      ∀ t pl, OutMsg.broadcast t pl ∉ (generate sampleForeign).2 :=
  generate_invalid_peer_aborts sampleForeign ⟨[], ["p1"]⟩ ["p1"] ["evil"] "evil"
    rfl rfl rfl (by decide) (by decide)

/-- C4 counterexample: on expiry of the lookup wait the code fails with
the message Timed out, not the message lookup timed out that the claim
states. -/
theorem generate_lookup_timeout_message_cex :
    (generate sampleNoLookup).1 = GenResult.err "Timed out" ∧
      (generate sampleNoLookup).1 ≠ GenResult.err "lookup timed out" := by
  constructor
  · rfl
  · decide

/-- C4 amended: both waits are bounded, the lookup wait at 30 time units
and the join wait at 120, and each on expiry fails the session with the
error Timed out. -/
theorem generate_timeouts_bounded (inp : GenInput) :
    ((∀ e ∈ inp.closestPeerEvents, e.2.1 = inp.queryId → 30 ≤ e.1) →
        generate inp = (GenResult.err "Timed out", [])) ∧
      (∀ ok pm, lookupWait inp.queryId inp.closestPeerEvents = Except.ok ok →
        selectPeers inp.draws inp.maxSigners ok.peers = some pm →
        (∀ e ∈ inp.subscribedEvents, e.2.1 = inp.generationId → 120 ≤ e.1) →
        (generate inp).1 = GenResult.err "Timed out") := by
  constructor
  · intro h
    have hLk := lookupWait_timeout inp.queryId inp.closestPeerEvents h
    simp only [generate, hLk]
  · intro ok pm hLk hSel h
    have hJw := joinWait_timeout inp.generationId inp.subscribedEvents h
    simp only [generate, hLk, hSel, hJw]

/-- Closed evaluation of generate_timeouts_bounded: a session with no
lookup result times out, and a session whose selected peer never answers
on the session topic times out. -/
theorem generate_timeouts_bounded_witness :
    generate sampleNoLookup = (GenResult.err "Timed out", []) ∧
      (generate sampleNoJoin).1 = GenResult.err "Timed out" :=
  ⟨(generate_timeouts_bounded sampleNoLookup).1 (by decide),
    (generate_timeouts_bounded sampleNoJoin).2 ⟨[], ["p1"]⟩ ["p1"] rfl rfl (by decide)⟩

/-- C10: when the closest-peers result holds fewer than MAX_SIGNERS
peers, the selection loop reaches the empty-range gen_range and panics
instead of returning an error. -/
theorem generate_panics_on_small_lookup
    (inp : GenInput) (ok : GetClosestPeersOk)
    (hLk : lookupWait inp.queryId inp.closestPeerEvents = Except.ok ok)
    (hlt : ok.peers.length < inp.maxSigners) :
    (generate inp).1 = GenResult.panic ∧ ∀ e, (generate inp).1 ≠ GenResult.err e := by
  have hsel := selectPeers_none_of_lt inp.maxSigners inp.draws ok.peers hlt
  simp only [generate, hLk, hsel]
  simp

/-- Closed evaluation of generate_panics_on_small_lookup: the lookup
result is empty while one signer is required. -/
theorem generate_panics_on_small_lookup_witness :
    (generate sampleEmptyLookup).1 = GenResult.panic ∧
      ∀ e, (generate sampleEmptyLookup).1 ≠ GenResult.err e :=
  generate_panics_on_small_lookup sampleEmptyLookup ⟨[], []⟩ rfl (by decide)

/-- C3: from a lookup result with at least max_signers distinct peers,
the selection draws exactly max_signers peers without replacement, and
the selection order determines for each selected peer a unique 1-based
protocol index in the JOIN_GEN messages. -/
theorem selectPeers_draws_exactly
    (draws : Nat → Nat) (n : Nat) (peers : List PeerId) (g pid : String)
    (a : List Multiaddr) (pm : List PeerId)
    (hLen : n ≤ peers.length) (hNd : peers.Nodup)
    (hSel : selectPeers draws n peers = some pm) :
    pm.length = n ∧ pm.Nodup ∧ pm ⊆ peers ∧
      ∀ k, k < pm.length →
        (joinMsgs g pid a 1 pm).getD k (OutMsg.subscribe "") =
          OutMsg.directMsg (pm.getD k "")
            (Payload.joinGen ⟨g, pid, (k + 1) % 65536, a⟩) := by
  obtain ⟨pm2, hsel2, hl, hsub, hnd⟩ := selectPeers_spec_aux n draws peers hLen
  rw [hSel] at hsel2
  injection hsel2 with he
  subst he
  refine ⟨hl, hnd hNd, hsub, ?_⟩
  intro k hk
  rw [joinMsgs_getD g pid a (OutMsg.subscribe "") pm 1 k hk]
  have : 1 + k = k + 1 := by omega
  rw [this]

/-- Closed evaluation of selectPeers_draws_exactly: two signers drawn
from three distinct peers. -/
theorem selectPeers_draws_exactly_witness :
    (["a", "b"] : List PeerId).length = 2 ∧ (["a", "b"] : List PeerId).Nodup ∧
      (["a", "b"] : List PeerId) ⊆ ["a", "b", "c"] ∧
      ∀ k, k < (["a", "b"] : List PeerId).length →
        (joinMsgs "g" "me" ["addr1"] 1 ["a", "b"]).getD k (OutMsg.subscribe "") =
          OutMsg.directMsg ((["a", "b"] : List PeerId).getD k "")
            (Payload.joinGen ⟨"g", "me", (k + 1) % 65536, ["addr1"]⟩) :=
  selectPeers_draws_exactly (fun _ => 0) 2 ["a", "b", "c"] "g" "me" ["addr1"]
    ["a", "b"] (by decide) (by decide) (by decide)

/-- C1: a generation session that got past selection completes only on
full, valid participation. The subscription-confirmation event for the
session topic is emitted by the event dispatch loop, which is outside
the given sources; modelled from the spec: such an event carries the set
of peers that joined, and per the stated scenario it arrives only once
all max_signers selected peers have responded. So if fewer than
max_signers peers respond, no session-topic event exists, generate waits
out the 120-time-unit deadline, resolves with the timeout error, and
never broadcasts GEN_R1 for a partial responder set. -/
theorem generate_timeout_without_full_participation
    (inp : GenInput) (responders : List PeerId) (ok : GetClosestPeersOk) (pm : List PeerId)
    (hLk : lookupWait inp.queryId inp.closestPeerEvents = Except.ok ok)
    (hSel : selectPeers inp.draws inp.maxSigners ok.peers = some pm)
    (hFew : responders.length < inp.maxSigners)
    (hEmit : ∀ e ∈ inp.subscribedEvents, e.2.1 = inp.generationId →
        e.2.2.length = inp.maxSigners ∧ e.2.2.Nodup ∧ e.2.2 ⊆ responders) :
    (generate inp).1 = GenResult.err "Timed out" ∧
      ∀ t pl, OutMsg.broadcast t pl ∉ (generate inp).2 := by
  have hJw : joinWait inp.generationId inp.subscribedEvents = Except.error "Timed out" := by
    apply joinWait_timeout
    intro e he htop
    obtain ⟨hlen, hnd, hsub⟩ := hEmit e he htop
    have hle := (List.subperm_of_subset hnd hsub).length_le
    omega
  simp only [generate, hLk, hSel, hJw]
  refine ⟨by trivial, ?_⟩
  intro t pl h
  rcases List.mem_cons.mp h with h | h
  · exact OutMsg.noConfusion h
  · exact joinMsgs_no_broadcast inp.generationId inp.peerId inp.listeners pm 1 t pl h

/-- Closed evaluation of generate_timeout_without_full_participation:
one signer required, nobody responds before the deadline. -/
theorem generate_timeout_without_full_participation_witness :
    (generate sampleNoJoin).1 = GenResult.err "Timed out" ∧
      ∀ t pl, OutMsg.broadcast t pl ∉ (generate sampleNoJoin).2 :=
  generate_timeout_without_full_participation sampleNoJoin [] ⟨[], ["p1"]⟩ ["p1"]
    rfl rfl (by decide) (by intro e he htop; exact absurd he (List.not_mem_nil e))

/-- The trace of generate is either empty or starts with the
subscription to the session topic. -/
theorem generate_trace_shape (inp : GenInput) :
    (generate inp).2 = [] ∨
      ∃ rest, (generate inp).2 = OutMsg.subscribe inp.generationId :: rest := by
  cases hLk : lookupWait inp.queryId inp.closestPeerEvents with
  | error e => left; simp [generate, hLk]
  | ok ok =>
      cases hSel : selectPeers inp.draws inp.maxSigners ok.peers with
      | none => left; simp [generate, hLk, hSel]
      | some pm =>
          cases hJw : joinWait inp.generationId inp.subscribedEvents with
          | error e =>
              right
              refine ⟨joinMsgs inp.generationId inp.peerId inp.listeners 1 pm, ?_⟩
              simp [generate, hLk, hSel, hJw]
          | ok responses =>
              by_cases hv : responses.all (fun p => pm.contains p) = true
              · right
                refine ⟨joinMsgs inp.generationId inp.peerId inp.listeners 1 pm ++
                  [OutMsg.broadcast inp.generationId Payload.genR1], ?_⟩
                have hv2 : ∀ x ∈ responses, x ∈ pm := by simpa using hv
                simp only [generate, hLk, hSel, hJw]
                rw [if_pos (by simpa using hv)]
                simp
              · right
                refine ⟨joinMsgs inp.generationId inp.peerId inp.listeners 1 pm, ?_⟩
                have hv2 : ¬ ∀ x ∈ responses, x ∈ pm := by simpa using hv
                simp only [generate, hLk, hSel, hJw]
                rw [if_neg (by simpa using hv)]

/-- C5: the subscription to the broadcast topic named by the session id
is issued strictly before any JOIN_GEN invitation of that session: the
subscription send heads the trace and every invitation sits after it. -/
theorem generate_subscribe_before_invitations
    (inp : GenInput) (p : PeerId) (inv : JoinInvitation)
    (hmem : OutMsg.directMsg p (Payload.joinGen inv) ∈ (generate inp).2) :
    (generate inp).2.head? = some (OutMsg.subscribe inp.generationId) ∧
      OutMsg.directMsg p (Payload.joinGen inv) ∈ (generate inp).2.tail := by
  rcases generate_trace_shape inp with h | ⟨rest, h⟩
  · rw [h] at hmem
    exact absurd hmem (List.not_mem_nil _)
  · rw [h] at hmem ⊢
    refine ⟨rfl, ?_⟩
    rcases List.mem_cons.mp hmem with h2 | h2
    · exact OutMsg.noConfusion h2
    · exact h2

/-- Closed evaluation of generate_subscribe_before_invitations: the
invitation to p1 follows the subscription send. -/
theorem generate_subscribe_before_invitations_witness :
    (generate sampleNoJoin).2.head? = some (OutMsg.subscribe "g") ∧
      OutMsg.directMsg "p1" (Payload.joinGen ⟨"g", "me", 1, ["addr1"]⟩) ∈
        (generate sampleNoJoin).2.tail :=
  generate_subscribe_before_invitations sampleNoJoin "p1" ⟨"g", "me", 1, ["addr1"]⟩
    (by decide)

/-- Past selection, the trace of generate is the subscription followed
by the invitations, followed by the GEN_R1 broadcast exactly when the
session validated and completed. -/
theorem generate_trace_eq
    (inp : GenInput) (ok : GetClosestPeersOk) (pm : List PeerId)
    (hLk : lookupWait inp.queryId inp.closestPeerEvents = Except.ok ok)
    (hSel : selectPeers inp.draws inp.maxSigners ok.peers = some pm) :
    (generate inp).2 = OutMsg.subscribe inp.generationId ::
        joinMsgs inp.generationId inp.peerId inp.listeners 1 pm ∨
      (generate inp).2 = OutMsg.subscribe inp.generationId ::
        (joinMsgs inp.generationId inp.peerId inp.listeners 1 pm ++
          [OutMsg.broadcast inp.generationId Payload.genR1]) := by
  cases hJw : joinWait inp.generationId inp.subscribedEvents with
  | error e =>
      left
      simp only [generate, hLk, hSel, hJw]
  | ok responses =>
      cases hv : responses.all fun p => pm.contains p with
      | true =>
          right
          simp only [generate, hLk, hSel, hJw]
          rw [if_pos hv]
          simp
      | false =>
          left
          simp only [generate, hLk, hSel, hJw]
          rw [if_neg (by rw [hv]; exact Bool.false_ne_true)]

/-- C6: for every selected peer, exactly one direct JOIN_GEN invitation
is sent to it, carrying precisely the session id, the own peer identity
of the inviter, the 1-based participant index of that peer, and the
current known listen addresses of the inviter. -/
theorem generate_one_invitation_per_peer
    (inp : GenInput) (ok : GetClosestPeersOk) (pm : List PeerId)
    (hLk : lookupWait inp.queryId inp.closestPeerEvents = Except.ok ok)
    (hNd : ok.peers.Nodup)
    (hLen : inp.maxSigners ≤ ok.peers.length)
    (hW : inp.maxSigners < 65536)
    (hSel : selectPeers inp.draws inp.maxSigners ok.peers = some pm) :
    ∀ k, k < pm.length →
      (generate inp).2.filter (isDirectTo (pm.getD k "")) =
        [OutMsg.directMsg (pm.getD k "")
          (Payload.joinGen ⟨inp.generationId, inp.peerId, k + 1, inp.listeners⟩)] := by
  intro k hk
  obtain ⟨pm2, hsel2, hl, hsub, hndf⟩ :=
    selectPeers_spec_aux inp.maxSigners inp.draws ok.peers hLen
  rw [hSel] at hsel2
  injection hsel2 with he
  subst he
  have hpmnd : pm.Nodup := hndf hNd
  have hkm : k < inp.maxSigners := hl ▸ hk
  have hmod : (1 + k) % 65536 = k + 1 := by
    rw [Nat.add_comm]
    exact Nat.mod_eq_of_lt (by omega)
  have hfil := joinMsgs_filter_at inp.generationId inp.peerId inp.listeners pm 1 k hpmnd hk
  rw [hmod] at hfil
  rcases generate_trace_eq inp ok pm hLk hSel with htr | htr
  · rw [htr, List.filter_cons_of_neg (by simp [isDirectTo])]
    exact hfil
  · rw [htr, List.filter_cons_of_neg (by simp [isDirectTo]), List.filter_append, hfil]
    have hbc : List.filter (isDirectTo (pm.getD k ""))
        [OutMsg.broadcast inp.generationId Payload.genR1] = [] := rfl
    rw [hbc, List.append_nil]

/-- Closed evaluation of generate_one_invitation_per_peer: the single
selected peer p1 receives exactly its one JOIN_GEN. -/
theorem generate_one_invitation_per_peer_witness :
    (generate sampleNoJoin).2.filter (isDirectTo "p1") =
      [OutMsg.directMsg "p1" (Payload.joinGen ⟨"g", "me", 1, ["addr1"]⟩)] :=
  generate_one_invitation_per_peer sampleNoJoin ⟨[], ["p1"]⟩ ["p1"]
    rfl (by decide) (by decide) (by decide) rfl 0 (by decide)

/-- C7: the signing coordinator generates a fresh 32-character
alphanumeric session id, serializes (session id, group key, message)
into a SIGN_R1 request, and broadcasts exactly that one message on the
topic identified by the group key, with no peer-selection or join phase. -/
theorem sign_broadcasts_single_request (seed : Nat → Nat) (onion message : String) :
    sign seed onion message =
        [OutMsg.broadcast onion (Payload.signR1 (genSessionId seed) onion message)] ∧
      (genSessionId seed).length = 32 ∧
      (genSessionId seed).data.all (fun c => alphanumericChars.contains c) = true := by
  refine ⟨rfl, ?_, ?_⟩
  · simp [genSessionId, String.length]
  · rw [List.all_eq_true]
    intro c hc
    have hc2 : c ∈ (List.range 32).map (fun i => alphanumericChars.getD (seed i % 62) 'A') := hc
    rw [List.mem_map] at hc2
    obtain ⟨i, _, he⟩ := hc2
    have hlt : seed i % 62 < alphanumericChars.length := by
      have h62 : alphanumericChars.length = 62 := by decide
      rw [h62]
      exact Nat.mod_lt _ (by omega)
    rw [← he, List.getD_eq_getElem _ _ hlt]
    exact List.elem_iff.mpr (List.getElem_mem hlt)

/-- C8: prepending an event of a different session to either stream
leaves generate unchanged: the lookup wait ignores a closest-peers event
with a foreign QueryId and the join wait ignores a subscription event on
a foreign topic. -/
theorem generate_ignores_foreign_sessions
    (inp : GenInput) (t : Nat) (q : QueryId) (ok : GetClosestPeersOk)
    (u : Nat) (topic : String) (ps : List PeerId)
    (hq : q ≠ inp.queryId) (ht : t < 30)
    (htop : topic ≠ inp.generationId) (hu : u < 120) :
    generate { inp with
        closestPeerEvents := (t, q, ok) :: inp.closestPeerEvents,
        subscribedEvents := (u, topic, ps) :: inp.subscribedEvents } = generate inp := by
  have h1 : lookupWait inp.queryId ((t, q, ok) :: inp.closestPeerEvents) =
      lookupWait inp.queryId inp.closestPeerEvents := by
    rw [lookupWait, if_neg (by omega), if_neg hq]
  have h2 : joinWait inp.generationId ((u, topic, ps) :: inp.subscribedEvents) =
      joinWait inp.generationId inp.subscribedEvents := by
    rw [joinWait, if_neg (by omega), if_neg htop]
  unfold generate
  dsimp only
  rw [h1, h2]

/-- Closed evaluation of generate_ignores_foreign_sessions: an event
with QueryId 1 and an event on topic h are ignored by the session with
QueryId 0 and topic g. -/
theorem generate_ignores_foreign_sessions_witness :
    generate { sampleNoJoin with
        closestPeerEvents := (0, 1, ⟨[], ["x"]⟩) :: sampleNoJoin.closestPeerEvents,
        subscribedEvents := (0, "h", []) :: sampleNoJoin.subscribedEvents } =
      generate sampleNoJoin :=
  generate_ignores_foreign_sessions sampleNoJoin 0 1 ⟨[], ["x"]⟩ 0 "h" []
    (by decide) (by decide) (by decide) (by decide)

/-- C9: the futures returned by Swarm::generate and Swarm::sign resolve
with either a success value or a specific SwarmError, and a result
channel dropped without a value resolves them with the message
processing error. -/
theorem pending_call_resolves :
    (∀ rx : OneshotRecv VerifyingKey,
        (∃ v, swarmGenerateFuture rx = Except.ok v) ∨
          swarmGenerateFuture rx = Except.error SwarmError.MessageProcessingError) ∧
      swarmGenerateFuture OneshotRecv.dropped =
        Except.error SwarmError.MessageProcessingError ∧
      (∀ rx : OneshotRecv Signature,
        (∃ s, swarmSignFuture rx = Except.ok s) ∨
          swarmSignFuture rx = Except.error SwarmError.MessageProcessingError) ∧
      swarmSignFuture OneshotRecv.dropped =
        Except.error SwarmError.MessageProcessingError := by
  refine ⟨?_, rfl, ?_, rfl⟩
  · intro rx
    cases rx with
    | value a => exact Or.inl ⟨a, rfl⟩
    | dropped => exact Or.inr rfl
  · intro rx
    cases rx with
    | value a => exact Or.inl ⟨a, rfl⟩
    | dropped => exact Or.inr rfl
